import Mathlib

/- Shallow embedding of the YandexGPT-to-OpenAI translation proxy (app.py):
   the streaming chunk translator, model alias resolver, image poll loop,
   authentication, and embeddings endpoint, with theorems checking the
   specification's claims against this embedding. -/

namespace Y2O

/-! ### Python string primitives -/

/-- Python len(s): the number of characters of the string. -/
def pyLen (s : String) : Nat := s.data.length

/-- Python s[i:] for a non-negative index i: drop the first i characters.
    For i greater than the length the result is the empty string (Python
    slicing never fails and never yields a negative-length result). -/
def pySlice (s : String) (i : Nat) : String := String.mk (s.data.drop i)

/-- Python s.startswith(p), on character lists. -/
def pyStartsWith (s p : List Char) : Bool := p.isPrefixOf s

/-- Python membership test `p in s` (contiguous substring), on character lists. -/
def listContainsSub : List Char → List Char → Bool
  | [], p => p.isEmpty
  | c :: rest, p => p.isPrefixOf (c :: rest) || listContainsSub rest p

theorem isPrefixOf_iff_exists : ∀ (p s : List Char), (p.isPrefixOf s = true) ↔ ∃ r, p ++ r = s
  | [], s => by simp [List.isPrefixOf]
  | _ :: _, [] => by simp [List.isPrefixOf]
  | a :: p, b :: s => by
    simp only [List.isPrefixOf, Bool.and_eq_true, beq_iff_eq, List.cons_append,
      List.cons.injEq]
    constructor
    · rintro ⟨rfl, h⟩
      obtain ⟨r, rfl⟩ := (isPrefixOf_iff_exists p s).mp h
      exact ⟨r, rfl, rfl⟩
    · rintro ⟨r, rfl, rfl⟩
      exact ⟨rfl, (isPrefixOf_iff_exists p (p ++ r)).mpr ⟨r, rfl⟩⟩

theorem listContainsSub_iff_exists :
    ∀ (s p : List Char), (listContainsSub s p = true) ↔ ∃ a b, a ++ p ++ b = s
  | [], p => by
    constructor
    · intro h
      simp only [listContainsSub, List.isEmpty_iff] at h
      exact ⟨[], [], by simp [h]⟩
    · rintro ⟨a, b, h⟩
      have : p = [] := by
        rcases List.append_eq_nil.mp h with ⟨h1, -⟩
        exact List.append_eq_nil.mp h1 |>.2
      simp [listContainsSub, this]
  | c :: rest, p => by
    simp only [listContainsSub, Bool.or_eq_true]
    constructor
    · rintro (h | h)
      · obtain ⟨r, hr⟩ := (isPrefixOf_iff_exists p (c :: rest)).mp h
        exact ⟨[], r, by simpa using hr⟩
      · obtain ⟨a, b, hab⟩ := (listContainsSub_iff_exists rest p).mp h
        exact ⟨c :: a, b, by simp [hab]⟩
    · rintro ⟨a, b, hab⟩
      match a, hab with
      | [], hab =>
        exact Or.inl ((isPrefixOf_iff_exists p (c :: rest)).mpr ⟨b, by simpa using hab⟩)
      | x :: a, hab =>
        have hx : x = c ∧ a ++ p ++ b = rest := by
          simpa using hab
        exact Or.inr ((listContainsSub_iff_exists rest p).mpr ⟨a, b, hx.2⟩)

/-! ### Model alias resolvers (chat_model_alias, image_model_alias) -/

/-- Embedding of chat_model_alias: order-sensitive rule match on the requested
    model name. -/
def chat_model_alias (model : String) : String :=
  if pyStartsWith model.data "gpt-3.5".data || listContainsSub model.data "mini".data then
    "yandexgpt-lite/latest"
  else if pyStartsWith model.data "gpt-4".data then
    "yandexgpt/latest"
  else
    model

/-- Embedding of image_model_alias. -/
def image_model_alias (model : String) : String :=
  if listContainsSub model.data "dall-e".data then "yandex-art/latest" else model

/-! ### Streaming chunk translator (stream_chat_completions) -/

/-- Python value found under tool_call["functionCall"]["arguments"]: either a
    structured dict (carried here by its json.dumps serialization) or an
    already-serialized string. -/
inductive PyArgs where
  | adict (serialized : String)
  | astr (s : String)
deriving DecidableEq

/-- The functionCall member of an upstream tool-call descriptor: a name and an
    optional arguments member (tool_call["functionCall"].get("arguments", \x7b\x7d)
    defaults a missing member to the empty dict). -/
structure FunctionCall where
  name : String
  arguments : Option PyArgs
deriving DecidableEq

/-- One upstream tool-call descriptor: an optional functionCall member, plus
    `raw`, the Python str() rendering of the whole descriptor, which the code
    hashes to build the synthetic call identifier. -/
structure ToolCall where
  functionCall : Option FunctionCall
  raw : String
deriving DecidableEq

/-- The parse outcome of one raw upstream stream chunk, as discriminated by the
    code: json.loads succeeds and the message carries "text"; or it carries
    "toolCallList" with its toolCalls list; or it parses but carries neither
    key (the if/elif falls through, nothing is emitted); or json.loads raises
    json.JSONDecodeError (the except branch); or it parses as JSON but lacks
    the expected result/alternatives/message structure, so indexing raises
    KeyError, which no handler catches. -/
inductive Fragment where
  | text (t : String)
  | toolCalls (calls : List ToolCall)
  | noContent
  | jsonError
  | badShape
deriving DecidableEq

/-- One downstream translated event: a text delta, or a tool-call delta with
    its synthetic identifier, function name and string-encoded arguments. -/
inductive Event where
  | textDelta (delta : String)
  | toolCallEvent (id name arguments : String)
deriving DecidableEq

/-- The delta carried by a text event (empty for tool events). -/
def deltaOf : Event → String
  | .textDelta d => d
  | .toolCallEvent _ _ _ => ""

/-- Translation of one upstream tool-call descriptor: descriptors without a
    functionCall member are skipped; dict arguments are json.dumps-serialized;
    the synthetic id is "call_" + int(now) + "_" + hash(str(tool_call)). -/
def translate_tool_call (hash : String → Int) (now : Nat) (tc : ToolCall) : Option Event :=
  tc.functionCall.map fun fc =>
    Event.toolCallEvent ("call_" ++ toString now ++ "_" ++ toString (hash tc.raw))
      fc.name
      (match fc.arguments with
       | none => "\x7b\x7d"
       | some (.adict s) => s
       | some (.astr s) => s)

/-- All tool-call events produced for one toolCallList fragment, in list order. -/
def translate_tool_calls (hash : String → Int) (now : Nat) (calls : List ToolCall) :
    List Event :=
  calls.filterMap (translate_tool_call hash now)

/-- Processing of one stream fragment at current cursor str_index: text
    fragments emit the suffix message["text"][str_index:] and set str_index to
    len(message["text"]); toolCallList fragments emit their tool-call events
    and leave str_index unchanged; fragments carrying neither key and
    JSONDecodeError fragments emit nothing and leave str_index unchanged;
    fragments with an unexpected JSON shape raise an uncaught KeyError. -/
def process_fragment (hash : String → Int) (now : Nat) (str_index : Nat) :
    Fragment → Except Unit (Nat × List Event)
  | .text t => .ok (pyLen t, [.textDelta (pySlice t str_index)])
  | .toolCalls calls => .ok (str_index, translate_tool_calls hash now calls)
  | .noContent => .ok (str_index, [])
  | .jsonError => .ok (str_index, [])
  | .badShape => .error ()

/-- The per-stream loop over upstream fragments: events already yielded are
    kept; an uncaught exception terminates the stream (no further events, no
    final cursor). Returns the emitted events and either the final str_index
    or the terminating failure. -/
def process_stream (hash : String → Int) (now : Nat) :
    Nat → List Fragment → List Event × Except Unit Nat
  | str_index, [] => ([], .ok str_index)
  | str_index, f :: fs =>
    match process_fragment hash now str_index f with
    | .error e => ([], .error e)
    | .ok (idx, evs) =>
      let rest := process_stream hash now idx fs
      (evs ++ rest.1, rest.2)

/-- One upstream HTTP response to the streaming (or non-streaming) completion
    request: status code, body text, and the stream fragments that follow. -/
structure UpstreamStreamResponse where
  status : Nat
  body : String
  fragments : List Fragment
deriving DecidableEq

/-- Embedding of stream_chat_completions after the upstream POST: a non-200
    status raises HTTPException(status, body) before anything is emitted;
    otherwise str_index starts at 0 and the fragment loop runs. -/
def stream_chat_completions (hash : String → Int) (now : Nat)
    (resp : UpstreamStreamResponse) :
    Except (Nat × String) (List Event × Except Unit Nat) :=
  if resp.status ≠ 200 then .error (resp.status, resp.body)
  else .ok (process_stream hash now 0 resp.fragments)

/-- Embedding of non_stream_chat_completions after the upstream POST: a
    non-200 status raises HTTPException(status, body); otherwise the body is
    handed to chat_completion_translation (a collaborator in utils/misc, not
    part of this repository snapshot, abstracted as the parameter
    `translate`). -/
def non_stream_chat_completions (translate : String → String)
    (resp : UpstreamStreamResponse) : Except (Nat × String) String :=
  if resp.status ≠ 200 then .error (resp.status, resp.body)
  else .ok (translate resp.body)

/-! ### Image generation poll loop (image_generation) -/

/-- Outcome of the poll loop in image_generation: either the operation result
    together with the number of status queries issued and of asyncio.sleep(1)
    calls performed, or the HTTPException(500) timeout with the same counts. -/
inductive PollResult (R : Type) where
  | done (r : R) (polls sleeps : Nat)
  | timedOut (code : Nat) (detail : String) (polls sleeps : Nat)
deriving DecidableEq

/-- Embedding of the while loop of image_generation. `check j` is what
    image_generation_check returns on the j-th status query (0-indexed): some
    result when the operation reports done with a response, none otherwise.
    `i` is the loop counter (number of polls already performed) and `sleeps`
    counts the asyncio.sleep(1) calls so far. Each iteration polls, increments
    i, raises HTTPException(500, "Image generation timeout (...)") as soon as
    i exceeds the caller-supplied timeout — even when the poll just returned a
    result — and otherwise sleeps one second before re-testing the loop
    condition. -/
def image_generation_poll {R : Type} (check : Nat → Option R) (timeout : Nat)
    (i sleeps : Nat) : PollResult R :=
  let response_data := check i
  if h : i + 1 > timeout then
    .timedOut 500 ("Image generation timeout (" ++ toString timeout ++ "s)") (i + 1) sleeps
  else
    match response_data with
    | some r => .done r (i + 1) (sleeps + 1)
    | none => image_generation_poll check timeout (i + 1) (sleeps + 1)
termination_by timeout - i
decreasing_by omega

/-! ### Authentication (authenticate_user, get_creds) -/

/-- Python token.split(":") on character lists: single-character separator
    split, keeping empty parts. -/
def pySplitChar (sep : Char) : List Char → List (List Char)
  | [] => [[]]
  | c :: cs =>
    let r := pySplitChar sep cs
    if c = sep then [] :: r
    else
      match r with
      | [] => [[c]]
      | h :: t => (c :: h) :: t

/-- The auth_response dict built by authenticate_user. -/
structure AuthResponse where
  user_id : Option String
  byok : Option (List Char × List Char)
deriving DecidableEq

/-- What a call to authenticate_user does: return an auth_response, raise
    HTTPException(401), or raise an uncaught ValueError (from unpacking
    token.split(":") into two variables when the list length is not 2). -/
inductive AuthOutcome where
  | ok (a : AuthResponse)
  | http401
  | valueError
deriving DecidableEq

/-- Embedding of authenticate_user: when BYOK is enabled and the bearer token
    contains ":", the token is split and unpacked as catalogid, secretkey and
    returned without consulting the token table; otherwise the token table is
    consulted and a miss raises HTTPException(401). -/
def authenticate_user (BYOK : Bool) (tokens : List (List Char × String))
    (token : List Char) : AuthOutcome :=
  if BYOK && token.contains ':' then
    match pySplitChar ':' token with
    | [catalogid, secretkey] => .ok ⟨none, some (catalogid, secretkey)⟩
    | _ => .valueError
  else
    match tokens.lookup token with
    | some user_id => .ok ⟨some user_id, none⟩
    | none => .http401

/-- Embedding of get_creds: BYOK credentials from the auth response when BYOK
    is enabled, then the static environment credentials when a managed user_id
    is present. -/
def get_creds (BYOK : Bool) (CATALOGID SECRETKEY : Option (List Char))
    (auth : AuthResponse) :
    Option (List Char) × Option (List Char) × Option String :=
  let byokCreds : Option (List Char) × Option (List Char) :=
    match auth.byok, BYOK with
    | some (c, s), true => (some c, some s)
    | _, _ => (none, none)
  match auth.user_id with
  | some uid => (CATALOGID, SECRETKEY, some uid)
  | none => (byokCreds.1, byokCreds.2, none)

/-! ### Embeddings endpoint (embeddings) -/

/-- A duck-typed JSON value for the request's `input` field: a string, a list
    of values, or any other JSON value (number, object, boolean, null). -/
inductive JVal where
  | jstr (s : String)
  | jlist (xs : List JVal)
  | jother

/-- Python isinstance(v, str). -/
def JVal.isStr : JVal → Bool
  | .jstr _ => true
  | _ => false

/-- One entry of the translated embeddings response: the raw vector, or its
    base64 encoding. -/
inductive EmbOut where
  | raw (v : List Int)
  | b64 (s : String)
deriving DecidableEq

/-- The per-element isinstance(text, str) check of the embeddings loop: the
    first non-string element raises HTTPException(400). -/
def collect_texts : List JVal → Except (Nat × String) (List String)
  | [] => .ok []
  | .jstr s :: rest => (collect_texts rest).map (s :: ·)
  | _ :: _ => .error (400, "`input` must be a string or a list of strings")

/-- Modelled from the spec: embeddings_translation lives in utils/misc, which
    is not part of this repository snapshot. Per the spec it returns one
    embedding vector per upstream result, order preserved, each individually
    base64-encoded iff the requested encoding format is base64. `enc` is the
    base64 encoder. -/
def embeddings_translation (enc : List Int → String) (results : List (List Int))
    (b64 : Bool) : List EmbOut :=
  results.map fun v => if b64 then .b64 (enc v) else .raw v

/-- Embedding of the embeddings endpoint after credential resolution, with the
    upstream fetch abstracted as `embed` (each upstream call assumed to return
    status 200, carrying the vector for one input text): a plain-string input
    is wrapped into a one-element list, a non-string non-list input raises
    HTTPException(400), each element is checked to be a string, the upstream
    is queried once per text in order, and the collected results are handed to
    embeddings_translation with b64 = (encoding_format == "base64"). -/
def embeddings_endpoint (embed : String → List Int) (enc : List Int → String)
    (encoding_format : String) (input : JVal) :
    Except (Nat × String) (List EmbOut) :=
  let b64 := encoding_format == "base64"
  let texts : Except (Nat × String) (List String) :=
    match input with
    | .jstr s => .ok [s]
    | .jlist xs => collect_texts xs
    | .jother => .error (400, "`input` must be a string or a list of strings")
  texts.map fun ts => embeddings_translation enc (ts.map embed) b64

/-! ### Helper definitions and lemmas about the streaming translator -/

/-- The deltas the translator computes for a sequence of cumulative texts,
    starting from cursor idx. -/
def textDeltas (idx : Nat) : List String → List String
  | [] => []
  | t :: ts => pySlice t idx :: textDeltas (pyLen t) ts

/-- The last cumulative text of the sequence (prev when the list is empty). -/
def lastText (prev : String) : List String → String
  | [] => prev
  | _t :: ts => lastText _t ts

/-- The value of str_index after the whole sequence is processed. -/
def finalIndex (idx : Nat) : List String → Nat
  | [] => idx
  | t :: ts => finalIndex (pyLen t) ts

/-- Concatenation of a list of strings, in order. -/
def concatStrs (l : List String) : String := l.foldr (· ++ ·) ""

/-- The prefix-extension chain condition on a sequence of cumulative texts:
    each text extends the previous one (prev seeding the chain). -/
def prefixChainB (prev : String) : List String → Bool
  | [] => true
  | t :: ts => pyStartsWith t.data prev.data && prefixChainB t ts

theorem data_append (a b : String) : (a ++ b).data = a.data ++ b.data := rfl

theorem process_stream_text (hash : String → Int) (now : Nat) :
    ∀ (ts : List String) (idx : Nat),
      process_stream hash now idx (ts.map Fragment.text) =
        ((textDeltas idx ts).map Event.textDelta, .ok (finalIndex idx ts))
  | [], idx => rfl
  | t :: ts, idx => by
    simp [process_stream, process_fragment, textDeltas, finalIndex,
      process_stream_text hash now ts (pyLen t)]

theorem chain_last_ext :
    ∀ (ts : List String) (prev : String), prefixChainB prev ts = true →
      ∃ r, prev.data ++ r = (lastText prev ts).data
  | [], prev => fun _ => ⟨[], List.append_nil _⟩
  | t :: ts, prev => by
    intro h
    simp only [prefixChainB, Bool.and_eq_true] at h
    obtain ⟨q, hq⟩ := (isPrefixOf_iff_exists prev.data t.data).mp h.1
    obtain ⟨r, hr⟩ := chain_last_ext ts t h.2
    exact ⟨q ++ r, by simp only [lastText, ← hr, ← hq, List.append_assoc]⟩

theorem concat_textDeltas :
    ∀ (ts : List String) (prev : String), prefixChainB prev ts = true →
      (concatStrs (textDeltas (pyLen prev) ts)).data =
        (lastText prev ts).data.drop prev.data.length
  | [], prev => by
    intro _
    show ("" : String).data = (lastText prev []).data.drop prev.data.length
    simp [lastText, List.drop_length]
  | t :: ts, prev => by
    intro h
    simp only [prefixChainB, Bool.and_eq_true] at h
    obtain ⟨q, hq⟩ := (isPrefixOf_iff_exists prev.data t.data).mp h.1
    obtain ⟨r, hr⟩ := chain_last_ext ts t h.2
    have ih := concat_textDeltas ts t h.2
    have hL : (lastText t ts).data = prev.data ++ (q ++ r) := by
      rw [← hr, ← hq, List.append_assoc]
    show (pySlice t (pyLen prev) ++ concatStrs (textDeltas (pyLen t) ts)).data =
      (lastText t ts).data.drop prev.data.length
    rw [data_append, ih, hL]
    have h1 : (pySlice t (pyLen prev)).data = q := by
      show t.data.drop prev.data.length = q
      rw [← hq]
      exact List.drop_left prev.data q
    have h2 : (prev.data ++ (q ++ r)).drop t.data.length = r := by
      rw [← hq, ← List.append_assoc]
      exact List.drop_left _ _
    rw [h1, h2, List.drop_left]

theorem concatStrs_length :
    ∀ l : List String, (concatStrs l).data.length = (l.map pyLen).sum
  | [] => rfl
  | s :: l => by
    show (s ++ concatStrs l).data.length = _
    rw [data_append, List.length_append, concatStrs_length l]
    simp [pyLen]

theorem chain_mono :
    ∀ (ts : List String) (prev : String), prefixChainB prev ts = true →
      List.Chain (· ≤ ·) (pyLen prev) (ts.map pyLen)
  | [], _ => fun _ => List.Chain.nil
  | t :: ts, prev => by
    intro h
    simp only [prefixChainB, Bool.and_eq_true] at h
    obtain ⟨q, hq⟩ := (isPrefixOf_iff_exists prev.data t.data).mp h.1
    refine List.Chain.cons ?_ (chain_mono ts t h.2)
    show prev.data.length ≤ t.data.length
    rw [← hq, List.length_append]
    exact Nat.le_add_right _ _

/-! ### Lemmas about pySplitChar -/

theorem pySplitChar_ne_nil (sep : Char) : ∀ l : List Char, pySplitChar sep l ≠ []
  | [] => by simp [pySplitChar]
  | c :: cs => by
    simp only [pySplitChar]
    split
    · simp
    · match h : pySplitChar sep cs with
      | [] => simp
      | h0 :: t0 => simp

theorem pySplitChar_length (sep : Char) :
    ∀ l : List Char, (pySplitChar sep l).length = l.count sep + 1
  | [] => rfl
  | c :: cs => by
    have ih := pySplitChar_length sep cs
    simp only [pySplitChar]
    by_cases hc : c = sep
    · simp [hc, List.count_cons, ih]
    · match h : pySplitChar sep cs with
      | [] => exact absurd h (pySplitChar_ne_nil sep cs)
      | h0 :: t0 =>
        rw [h] at ih
        simp [hc, List.count_cons, ← ih, Ne.symm hc]

theorem pySplitChar_no_sep (sep : Char) :
    ∀ l : List Char, sep ∉ l → pySplitChar sep l = [l]
  | [], _ => rfl
  | c :: cs, h => by
    have hc : ¬(c = sep) := fun e => h (e ▸ List.mem_cons_self _ _)
    have ih := pySplitChar_no_sep sep cs (fun m => h (List.mem_cons_of_mem _ m))
    simp [pySplitChar, hc, ih]

theorem pySplitChar_append (sep : Char) :
    ∀ (c s : List Char), sep ∉ c →
      pySplitChar sep (c ++ sep :: s) = c :: pySplitChar sep s
  | [], s, _ => by simp [pySplitChar]
  | x :: c, s, h => by
    have hx : ¬(x = sep) := fun e => h (e ▸ List.mem_cons_self _ _)
    have ih := pySplitChar_append sep c s (fun m => h (List.mem_cons_of_mem _ m))
    show pySplitChar sep (x :: (c ++ sep :: s)) = (x :: c) :: pySplitChar sep s
    simp only [pySplitChar, if_neg hx]
    rw [ih]

/-! ### Lemmas about collect_texts -/

theorem collect_texts_strings :
    ∀ ss : List String, collect_texts (ss.map JVal.jstr) = .ok ss
  | [] => rfl
  | s :: ss => by simp [collect_texts, collect_texts_strings ss, Except.map]

theorem collect_texts_bad :
    ∀ (ss : List String) (v : JVal) (rest : List JVal), v.isStr = false →
      collect_texts (ss.map JVal.jstr ++ v :: rest) =
        .error (400, "`input` must be a string or a list of strings")
  | [], v, rest, hv => by
    cases v with
    | jstr s => simp [JVal.isStr] at hv
    | jlist xs => rfl
    | jother => rfl
  | s :: ss, v, rest, hv => by
    simp [collect_texts, collect_texts_bad ss v rest hv, Except.map]

/-! ### Lemmas about the image poll loop -/

theorem poll_success {R : Type} (check : Nat → Option R) (timeout : Nat) (r : R) :
    ∀ (k i sleeps : Nat),
      (∀ j, i ≤ j → j < i + k → check j = none) →
      check (i + k) = some r →
      i + k < timeout →
      image_generation_poll check timeout i sleeps = .done r (i + k + 1) (sleeps + k + 1)
  | 0, i, sleeps => by
    intro _ hc hlt
    rw [image_generation_poll]
    simp only [Nat.add_zero] at hc hlt
    have hto : ¬(i + 1 > timeout) := by omega
    simp [hto, hc]
  | k + 1, i, sleeps => by
    intro hnone hc hlt
    rw [image_generation_poll]
    have h0 : check i = none := hnone i (Nat.le_refl i) (by omega)
    have hto : ¬(i + 1 > timeout) := by omega
    simp only [hto, dif_neg, h0]
    have ih := poll_success check timeout r k (i + 1) (sleeps + 1)
      (fun j hj1 hj2 => hnone j (by omega) (by omega))
      (by rw [show i + 1 + k = i + (k + 1) by omega]; exact hc)
      (by omega)
    rw [ih]
    have e1 : i + 1 + k + 1 = i + (k + 1) + 1 := by omega
    have e2 : sleeps + 1 + k + 1 = sleeps + (k + 1) + 1 := by omega
    rw [e1, e2]
    simp

theorem poll_timeout {R : Type} (check : Nat → Option R) (timeout : Nat) :
    ∀ (d i sleeps : Nat), timeout - i = d → i ≤ timeout →
      (∀ j, i ≤ j → j < timeout → check j = none) →
      image_generation_poll check timeout i sleeps =
        .timedOut 500 ("Image generation timeout (" ++ toString timeout ++ "s)")
          (timeout + 1) (sleeps + (timeout - i))
  | 0, i, sleeps => by
    intro hd hle _
    have hi : i = timeout := by omega
    subst hi
    rw [image_generation_poll]
    simp
  | d + 1, i, sleeps => by
    intro hd hle hnone
    have hlt : i < timeout := by omega
    rw [image_generation_poll]
    have h0 : check i = none := hnone i (Nat.le_refl i) hlt
    have hto : ¬(i + 1 > timeout) := by omega
    simp only [hto, dif_neg, h0]
    have ih := poll_timeout check timeout d (i + 1) (sleeps + 1)
      (by omega) (by omega) (fun j hj1 hj2 => hnone j (by omega) hj2)
    rw [ih]
    have e : sleeps + 1 + (timeout - (i + 1)) = sleeps + (timeout - i) := by omega
    rw [e]
    simp


/-! ### Claim theorems: streaming translator -/

theorem string_ext {a b : String} (h : a.data = b.data) : a = b := by
  cases a
  cases b
  exact congrArg String.mk h

theorem textDeltas_length : ∀ (ts : List String) (idx : Nat), (textDeltas idx ts).length = ts.length
  | [], _ => rfl
  | t :: ts, idx => by simp [textDeltas, textDeltas_length ts (pyLen t)]

theorem map_deltaOf_textDelta : ∀ l : List String, (l.map Event.textDelta).map deltaOf = l
  | [] => rfl
  | d :: l => by simp [deltaOf, map_deltaOf_textDelta l]

theorem map_pyLen_deltaOf :
    ∀ l : List String, (l.map Event.textDelta).map (pyLen ∘ deltaOf) = l.map pyLen
  | [] => rfl
  | d :: l => by simp [deltaOf, map_pyLen_deltaOf l]

/-- A fixed stand-in for Python's hash function, used by concrete witnesses. -/
def hashW : String → Int := fun _ => 0

/-- Claim C1: for every upstream sequence of text-bearing fragments whose
    cumulative texts t1, ..., tn are each a prefix-extension of the previous,
    the streaming translator emits one text-delta event per fragment, in
    arrival order, and the concatenation of all emitted deltas equals exactly
    tn (the last cumulative text). -/
theorem claim_C1_cumulative_to_delta (hash : String → Int) (now : Nat)
    (ts : List String) (hchain : prefixChainB "" ts = true) :
    (process_stream hash now 0 (ts.map Fragment.text)).1 =
      (textDeltas 0 ts).map Event.textDelta ∧
    (process_stream hash now 0 (ts.map Fragment.text)).1.length = ts.length ∧
    concatStrs (textDeltas 0 ts) = lastText "" ts := by
  have hA := process_stream_text hash now ts 0
  refine ⟨by rw [hA], ?_, ?_⟩
  · rw [hA]
    simp [textDeltas_length]
  · apply string_ext
    have h := concat_textDeltas ts "" hchain
    simpa using h

theorem claim_C1_witness :
    prefixChainB "" ["He", "Hello"] = true ∧
    ((process_stream hashW 7 0 (["He", "Hello"].map Fragment.text)).1 =
      (textDeltas 0 ["He", "Hello"]).map Event.textDelta ∧
     (process_stream hashW 7 0 (["He", "Hello"].map Fragment.text)).1.length =
      ["He", "Hello"].length ∧
     concatStrs (textDeltas 0 ["He", "Hello"]) = lastText "" ["He", "Hello"]) :=
  ⟨by decide, claim_C1_cumulative_to_delta hashW 7 ["He", "Hello"] (by decide)⟩

/-- Claim C4 counterexample: a fragment that is malformed stream data in the
    claim's sense — it does not parse into the expected upstream object, here
    because the decoded JSON lacks the result/alternatives/message structure —
    does NOT leave the stream running: the KeyError is uncaught, the stream
    terminates, and the following well-formed fragment "hi" is never emitted
    (the claim instead requires an emitted delta "hi" and a surviving stream). -/
theorem claim_C4_counterexample :
    process_stream hashW 0 0 [Fragment.badShape, Fragment.text "hi"] =
      ([], Except.error ()) := rfl

/-- Claim C4 (amended): only fragments whose bytes fail JSON decoding are
    absorbed locally — no event is emitted, str_index is untouched, and the
    stream continues with the remaining fragments exactly as if the fragment
    had not arrived; a fragment that decodes as JSON but lacks the expected
    object shape raises an uncaught error that terminates the stream. -/
theorem claim_C4_amended (hash : String → Int) (now idx : Nat)
    (fs : List Fragment) :
    process_stream hash now idx (Fragment.jsonError :: fs) =
      process_stream hash now idx fs ∧
    process_stream hash now idx (Fragment.badShape :: fs) = ([], Except.error ()) := by
  constructor
  · simp [process_stream, process_fragment]
  · rfl

/-- Claim C5: a fragment whose cumulative text has already been fully emitted
    (its length equals str_index) produces an empty delta, and the slice
    fullText[str_index:] is total with length len(fullText) - str_index
    truncated at zero — never negative-length or malformed, including for
    texts shorter than str_index. -/
theorem claim_C5_empty_delta (hash : String → Int) (now idx : Nat) (t u : String)
    (j : Nat) (h : pyLen t = idx) :
    process_fragment hash now idx (Fragment.text t) = .ok (idx, [.textDelta ""]) ∧
    pyLen (pySlice u j) = pyLen u - j := by
  constructor
  · subst h
    have hd : pySlice t (pyLen t) = "" := by
      apply string_ext
      show t.data.drop t.data.length = ("" : String).data
      simp [List.drop_length]
    simp [process_fragment, hd]
  · show (u.data.drop j).length = u.data.length - j
    exact List.length_drop j u.data

theorem claim_C5_witness :
    pyLen "He" = 2 ∧
    (process_fragment hashW 0 2 (Fragment.text "He") = .ok (2, [.textDelta ""]) ∧
     pyLen (pySlice "Hello" 9) = pyLen "Hello" - 9) :=
  ⟨by decide, claim_C5_empty_delta hashW 0 2 "He" "Hello" 9 (by decide)⟩

/-- Claim C7: a non-200 upstream HTTP status makes both the streaming and the
    non-streaming chat handler abort immediately with no translated output,
    surfacing an HTTPException that carries the upstream status code and the
    upstream response body; the upstream response is consumed exactly once (no
    retry is modelled or performed). -/
theorem claim_C7_upstream_error (hash : String → Int) (now : Nat)
    (translate : String → String) (resp : UpstreamStreamResponse)
    (h : resp.status ≠ 200) :
    stream_chat_completions hash now resp = .error (resp.status, resp.body) ∧
    non_stream_chat_completions translate resp = .error (resp.status, resp.body) := by
  constructor
  · simp [stream_chat_completions, h]
  · simp [non_stream_chat_completions, h]

theorem claim_C7_witness :
    (403 : Nat) ≠ 200 ∧
    (stream_chat_completions hashW 0 ⟨403, "Forbidden", [Fragment.text "hi"]⟩ =
      .error (403, "Forbidden") ∧
     non_stream_chat_completions id ⟨403, "Forbidden", [Fragment.text "hi"]⟩ =
      .error (403, "Forbidden")) :=
  ⟨by decide,
   claim_C7_upstream_error hashW 0 id ⟨403, "Forbidden", [Fragment.text "hi"]⟩ (by decide)⟩

/-- Claim C10: the per-stream cursor str_index starts at 0 when the upstream
    response begins; a successfully parsed text fragment sets it to the length
    of that fragment's cumulative text; JSONDecodeError fragments and
    tool-call fragments leave it unchanged; and under prefix-extension inputs
    the post-fragment values (ts.map pyLen, by the first conjunct) are
    non-decreasing from 0 while the total length of the emitted deltas equals
    the length of the last cumulative text, so each upstream character is
    emitted at most once. -/
theorem claim_C10_str_index (hash : String → Int) (now idx : Nat) (t body : String)
    (calls : List ToolCall) (ts : List String)
    (hchain : prefixChainB "" ts = true) :
    stream_chat_completions hash now ⟨200, body, ts.map Fragment.text⟩ =
      .ok (process_stream hash now 0 (ts.map Fragment.text)) ∧
    process_fragment hash now idx (Fragment.text t) =
      .ok (pyLen t, [.textDelta (pySlice t idx)]) ∧
    process_fragment hash now idx Fragment.jsonError = .ok (idx, []) ∧
    process_fragment hash now idx (Fragment.toolCalls calls) =
      .ok (idx, translate_tool_calls hash now calls) ∧
    List.Chain (· ≤ ·) 0 (ts.map pyLen) ∧
    concatStrs ((process_stream hash now 0 (ts.map Fragment.text)).1.map deltaOf) =
      lastText "" ts ∧
    ((process_stream hash now 0 (ts.map Fragment.text)).1.map (pyLen ∘ deltaOf)).sum =
      pyLen (lastText "" ts) := by
  refine ⟨rfl, rfl, rfl, rfl, ?_, ?_, ?_⟩
  · exact chain_mono ts "" hchain
  · rw [process_stream_text hash now ts 0]
    show concatStrs (((textDeltas 0 ts).map Event.textDelta).map deltaOf) = lastText "" ts
    rw [map_deltaOf_textDelta]
    apply string_ext
    have h := concat_textDeltas ts "" hchain
    rw [show pyLen "" = 0 from rfl] at h
    rw [show ("" : String).data.length = 0 from rfl, List.drop_zero] at h
    exact h
  · rw [process_stream_text hash now ts 0]
    show (((textDeltas 0 ts).map Event.textDelta).map (pyLen ∘ deltaOf)).sum =
      pyLen (lastText "" ts)
    rw [map_pyLen_deltaOf, ← concatStrs_length]
    show (concatStrs (textDeltas 0 ts)).data.length = (lastText "" ts).data.length
    have h := concat_textDeltas ts "" hchain
    rw [show pyLen "" = 0 from rfl] at h
    rw [show ("" : String).data.length = 0 from rfl, List.drop_zero] at h
    rw [h]

theorem claim_C10_witness :
    prefixChainB "" ["a", "ab"] = true ∧
    (stream_chat_completions hashW 3 ⟨200, "", ["a", "ab"].map Fragment.text⟩ =
      .ok (process_stream hashW 3 0 (["a", "ab"].map Fragment.text)) ∧
     process_fragment hashW 3 1 (Fragment.text "xyz") =
      .ok (pyLen "xyz", [.textDelta (pySlice "xyz" 1)]) ∧
     process_fragment hashW 3 1 Fragment.jsonError = .ok (1, []) ∧
     process_fragment hashW 3 1 (Fragment.toolCalls []) =
      .ok (1, translate_tool_calls hashW 3 []) ∧
     List.Chain (· ≤ ·) 0 (["a", "ab"].map pyLen) ∧
     concatStrs ((process_stream hashW 3 0 (["a", "ab"].map Fragment.text)).1.map deltaOf) =
      lastText "" ["a", "ab"] ∧
     ((process_stream hashW 3 0 (["a", "ab"].map Fragment.text)).1.map (pyLen ∘ deltaOf)).sum =
      pyLen (lastText "" ["a", "ab"])) :=
  ⟨by decide, claim_C10_str_index hashW 3 1 "xyz" "" [] ["a", "ab"] (by decide)⟩


/-! ### Claim theorems: tool calls (C2) -/

/-- The synthetic identifier carried by a tool-call event. -/
def eventId : Event → String
  | .textDelta _ => ""
  | .toolCallEvent id _ _ => id

/-- The event the translator builds for one tool-call descriptor that carries
    a functionCall member (the defaults for a missing member are unreachable
    after filtering). -/
def toolEventOf (hash : String → Int) (now : Nat) (tc : ToolCall) : Event :=
  Event.toolCallEvent ("call_" ++ toString now ++ "_" ++ toString (hash tc.raw))
    (match tc.functionCall with
     | some fc => fc.name
     | none => "")
    (match tc.functionCall with
     | some fc =>
       match fc.arguments with
       | none => "\x7b\x7d"
       | some (.adict s) => s
       | some (.astr s) => s
     | none => "")

theorem translate_tool_calls_eq (hash : String → Int) (now : Nat) :
    ∀ calls : List ToolCall,
      translate_tool_calls hash now calls =
        (calls.filter fun tc => tc.functionCall.isSome).map (toolEventOf hash now)
  | [] => rfl
  | tc :: calls => by
    have ih := translate_tool_calls_eq hash now calls
    cases h : tc.functionCall with
    | none =>
      have hnone : translate_tool_call hash now tc = none := by
        simp [translate_tool_call, h]
      show List.filterMap (translate_tool_call hash now) (tc :: calls) = _
      rw [List.filterMap_cons, hnone]
      simp only [List.filter_cons, h, Option.isSome_none, Bool.false_eq_true, if_false]
      exact ih
    | some fc =>
      have hsome : translate_tool_call hash now tc = some (toolEventOf hash now tc) := by
        simp [translate_tool_call, toolEventOf, h]
      show List.filterMap (translate_tool_call hash now) (tc :: calls) = _
      rw [List.filterMap_cons, hsome]
      simp only [List.filter_cons, h, Option.isSome_some, if_true, List.map_cons]
      exact congrArg (toolEventOf hash now tc :: ·) ih

theorem appendId_inj {p a b : String} (h : p ++ a = p ++ b) : a = b := by
  have h2 := congrArg String.data h
  rw [data_append, data_append] at h2
  exact string_ext (List.append_cancel_left h2)

def tcDup : ToolCall := ⟨some ⟨"get_weather", some (.astr "\x7b\x7d")⟩, "rawpayload"⟩

def tcNoFn : ToolCall := ⟨none, "other"⟩

def tcB : ToolCall := ⟨some ⟨"get_time", none⟩, "x"⟩

/-- A second stand-in hash, with different values on different lengths. -/
def hashW2 : String → Int := fun s => Int.ofNat (pyLen s)

/-- Claim C2 counterexample: a fragment whose toolCalls list holds twice the
    same descriptor (k = 2) emits two events whose synthetic identifiers
    coincide — int(now) and hash(str(tool_call)) agree on identical payloads —
    so the identifiers are not pairwise distinct; and a fragment whose single
    descriptor (k = 1) lacks a functionCall member emits zero events, not k. -/
theorem claim_C2_counterexample :
    process_fragment hashW 5 0 (Fragment.toolCalls [tcDup, tcDup]) =
      .ok (0, [Event.toolCallEvent "call_5_0" "get_weather" "\x7b\x7d",
               Event.toolCallEvent "call_5_0" "get_weather" "\x7b\x7d"]) ∧
    process_fragment hashW 5 0 (Fragment.toolCalls [tcNoFn]) = .ok (0, []) := by
  constructor <;> rfl

/-- Claim C2 (amended): a tool-call fragment emits exactly one downstream
    tool-call event per descriptor that carries a functionCall member, in the
    order of the toolCalls list, and the synthetic identifiers are pairwise
    distinct whenever the decimal renderings of the hash values of those
    descriptors' raw payloads are pairwise distinct. -/
theorem claim_C2_amended (hash : String → Int) (now : Nat) (calls : List ToolCall)
    (hdist : ((calls.filter fun tc => tc.functionCall.isSome).map
        (fun tc => toString (hash tc.raw))).Pairwise (· ≠ ·)) :
    translate_tool_calls hash now calls =
      (calls.filter fun tc => tc.functionCall.isSome).map (toolEventOf hash now) ∧
    (translate_tool_calls hash now calls).length =
      (calls.filter fun tc => tc.functionCall.isSome).length ∧
    ((translate_tool_calls hash now calls).map eventId).Pairwise (· ≠ ·) := by
  refine ⟨translate_tool_calls_eq hash now calls, ?_, ?_⟩
  · rw [translate_tool_calls_eq hash now calls]
    simp
  · rw [translate_tool_calls_eq hash now calls, List.map_map]
    have hfun : (eventId ∘ toolEventOf hash now) =
        fun tc => "call_" ++ toString now ++ "_" ++ toString (hash tc.raw) := rfl
    rw [hfun]
    rw [List.pairwise_map] at hdist ⊢
    exact hdist.imp (fun hne heq => hne (appendId_inj heq))

theorem claim_C2_witness :
    (([tcDup, tcNoFn, tcB].filter fun tc => tc.functionCall.isSome).map
        (fun tc => toString (hashW2 tc.raw))).Pairwise (· ≠ ·) ∧
    (translate_tool_calls hashW2 5 [tcDup, tcNoFn, tcB] =
      ([tcDup, tcNoFn, tcB].filter fun tc => tc.functionCall.isSome).map (toolEventOf hashW2 5) ∧
     (translate_tool_calls hashW2 5 [tcDup, tcNoFn, tcB]).length =
      ([tcDup, tcNoFn, tcB].filter fun tc => tc.functionCall.isSome).length ∧
     ((translate_tool_calls hashW2 5 [tcDup, tcNoFn, tcB]).map eventId).Pairwise (· ≠ ·)) :=
  ⟨by decide, claim_C2_amended hashW2 5 [tcDup, tcNoFn, tcB] (by decide)⟩

/-! ### Claim theorems: image poll loop (C3) -/

/-- Claim C3: with a status endpoint reporting done=false for the first N
    polls and done=true with a result on poll N+1, the loop returns the result
    iff N < timeout and raises HTTPException(500, timeout message) iff
    N ≥ timeout. The counters record that the counter increments once per
    status query (N+1 polls on success, timeout+1 on failure) and that one
    one-second sleep separates consecutive polls (the raise happens before the
    iteration's sleep). -/
theorem claim_C3_poll (R : Type) (check : Nat → Option R) (timeout N : Nat) (r : R)
    (hnone : ∀ j, j < N → check j = none) (hdone : check N = some r) :
    (N < timeout →
      image_generation_poll check timeout 0 0 = .done r (N + 1) (N + 1)) ∧
    (timeout ≤ N →
      image_generation_poll check timeout 0 0 =
        .timedOut 500 ("Image generation timeout (" ++ toString timeout ++ "s)")
          (timeout + 1) timeout) := by
  constructor
  · intro hlt
    have h := poll_success check timeout r N 0 0
      (fun j hj1 hj2 => hnone j (by omega)) (by simpa using hdone) (by omega)
    simpa using h
  · intro hle
    have h := poll_timeout check timeout timeout 0 0 (by omega) (by omega)
      (fun j hj1 hj2 => hnone j (by omega))
    simpa using h

/-- The status endpoint used by the C3 witness: done=false for the first two
    polls, done with result 42 from the third on. -/
def checkW : Nat → Option Nat := fun j => if j < 2 then none else some 42

theorem claim_C3_witness :
    image_generation_poll checkW 3 0 0 = .done 42 3 3 ∧
    image_generation_poll checkW 2 0 0 =
      .timedOut 500 ("Image generation timeout (" ++ toString 2 ++ "s)") 3 2 := by
  constructor
  · exact (claim_C3_poll Nat checkW 3 2 42
      (by intro j hj; interval_cases j <;> rfl) rfl).1 (by omega)
  · exact (claim_C3_poll Nat checkW 2 2 42
      (by intro j hj; interval_cases j <;> rfl) rfl).2 (by omega)


/-! ### Claim theorems: model alias resolver (C6) -/

theorem startsWith_false {p s : List Char} (h : p.isPrefixOf s = false) :
    ¬∃ r, p ++ r = s := fun he => by
  rw [(isPrefixOf_iff_exists p s).mpr he] at h
  exact Bool.noConfusion h

theorem containsSub_false {s p : List Char} (h : listContainsSub s p = false) :
    ¬∃ a b, a ++ p ++ b = s := fun he => by
  rw [(listContainsSub_iff_exists s p).mpr he] at h
  exact Bool.noConfusion h

/-- Claim C6: the chat model alias resolver is a pure, order-sensitive rule
    match: a name starting with "gpt-3.5" or containing "mini" maps to
    yandexgpt-lite/latest; a remaining name starting with "gpt-4" maps to
    yandexgpt/latest; a name matching no rule is returned unchanged. -/
theorem claim_C6_chat_alias (m : String) :
    ((∃ r, "gpt-3.5".data ++ r = m.data) ∨ (∃ a b, a ++ "mini".data ++ b = m.data) →
      chat_model_alias m = "yandexgpt-lite/latest") ∧
    (¬((∃ r, "gpt-3.5".data ++ r = m.data) ∨ (∃ a b, a ++ "mini".data ++ b = m.data)) →
      (∃ r, "gpt-4".data ++ r = m.data) → chat_model_alias m = "yandexgpt/latest") ∧
    (¬((∃ r, "gpt-3.5".data ++ r = m.data) ∨ (∃ a b, a ++ "mini".data ++ b = m.data)) →
      ¬(∃ r, "gpt-4".data ++ r = m.data) → chat_model_alias m = m) := by
  have h1 : (pyStartsWith m.data "gpt-3.5".data || listContainsSub m.data "mini".data) = true ↔
      ((∃ r, "gpt-3.5".data ++ r = m.data) ∨ (∃ a b, a ++ "mini".data ++ b = m.data)) := by
    rw [Bool.or_eq_true]
    exact or_congr (isPrefixOf_iff_exists _ _) (listContainsSub_iff_exists _ _)
  have h2 : pyStartsWith m.data "gpt-4".data = true ↔ (∃ r, "gpt-4".data ++ r = m.data) :=
    isPrefixOf_iff_exists _ _
  refine ⟨?_, ?_, ?_⟩
  · intro hcond
    simp [chat_model_alias, h1.mpr hcond]
  · intro hn hcond
    have hf : (pyStartsWith m.data "gpt-3.5".data || listContainsSub m.data "mini".data) = false := by
      rcases Bool.eq_false_or_eq_true _ with h | h
      · exact absurd (h1.mp h) hn
      · exact h
    simp [chat_model_alias, hf, h2.mpr hcond]
  · intro hn hn4
    have hf : (pyStartsWith m.data "gpt-3.5".data || listContainsSub m.data "mini".data) = false := by
      rcases Bool.eq_false_or_eq_true _ with h | h
      · exact absurd (h1.mp h) hn
      · exact h
    have hf4 : pyStartsWith m.data "gpt-4".data = false := by
      rcases Bool.eq_false_or_eq_true _ with h | h
      · exact absurd (h2.mp h) hn4
      · exact h
    simp [chat_model_alias, hf, hf4]

theorem claim_C6_witness :
    chat_model_alias "gpt-3.5-turbo" = "yandexgpt-lite/latest" ∧
    chat_model_alias "gpt-4o-mini" = "yandexgpt-lite/latest" ∧
    chat_model_alias "gpt-4-turbo" = "yandexgpt/latest" ∧
    chat_model_alias "llama-3" = "llama-3" := by
  refine ⟨?_, ?_, ?_, ?_⟩
  · exact (claim_C6_chat_alias "gpt-3.5-turbo").1
      (Or.inl ⟨"-turbo".data, by decide⟩)
  · exact (claim_C6_chat_alias "gpt-4o-mini").1
      (Or.inr ⟨"gpt-4o-".data, [], by decide⟩)
  · exact (claim_C6_chat_alias "gpt-4-turbo").2.1
      (not_or.mpr ⟨startsWith_false (by decide), containsSub_false (by decide)⟩)
      ⟨"-turbo".data, by decide⟩
  · exact (claim_C6_chat_alias "llama-3").2.2
      (not_or.mpr ⟨startsWith_false (by decide), containsSub_false (by decide)⟩)
      (startsWith_false (by decide))

/-! ### Claim theorems: embeddings endpoint (C8) -/

/-- Claim C8 (modelled in part from the spec, embeddings_translation living
    outside this snapshot): a list input of n strings yields exactly n result
    vectors, one per input and in input order, each base64-encoded iff
    encoding_format is "base64"; a single string input behaves as a
    one-element list; a non-string non-list input, or a list containing a
    non-string element, is rejected with HTTP 400. -/
theorem claim_C8_embeddings (embed : String → List Int) (enc : List Int → String)
    (format : String) (ss : List String) (s0 : String)
    (pre : List String) (v : JVal) (rest : List JVal) (hv : v.isStr = false) :
    embeddings_endpoint embed enc format (.jlist (ss.map .jstr)) =
      .ok (ss.map fun s =>
        if format == "base64" then EmbOut.b64 (enc (embed s)) else EmbOut.raw (embed s)) ∧
    embeddings_endpoint embed enc format (.jstr s0) =
      embeddings_endpoint embed enc format (.jlist [.jstr s0]) ∧
    embeddings_endpoint embed enc format .jother =
      .error (400, "`input` must be a string or a list of strings") ∧
    embeddings_endpoint embed enc format (.jlist (pre.map .jstr ++ v :: rest)) =
      .error (400, "`input` must be a string or a list of strings") := by
  refine ⟨?_, ?_, rfl, ?_⟩
  · simp only [embeddings_endpoint, collect_texts_strings ss, Except.map,
      embeddings_translation, List.map_map]
    rfl
  · rfl
  · simp only [embeddings_endpoint, collect_texts_bad pre v rest hv, Except.map]

theorem claim_C8_witness :
    JVal.isStr .jother = false ∧
    (embeddings_endpoint (fun s => [Int.ofNat (pyLen s)]) (fun _ => "QUJD") "base64"
        (.jlist (["a", "bb"].map .jstr)) =
      .ok (["a", "bb"].map fun s =>
        if "base64" == "base64" then EmbOut.b64 ((fun _ => "QUJD") ((fun s => [Int.ofNat (pyLen s)]) s))
        else EmbOut.raw ((fun s => [Int.ofNat (pyLen s)]) s)) ∧
     embeddings_endpoint (fun s => [Int.ofNat (pyLen s)]) (fun _ => "QUJD") "base64" (.jstr "solo") =
      embeddings_endpoint (fun s => [Int.ofNat (pyLen s)]) (fun _ => "QUJD") "base64"
        (.jlist [.jstr "solo"]) ∧
     embeddings_endpoint (fun s => [Int.ofNat (pyLen s)]) (fun _ => "QUJD") "base64" .jother =
      .error (400, "`input` must be a string or a list of strings") ∧
     embeddings_endpoint (fun s => [Int.ofNat (pyLen s)]) (fun _ => "QUJD") "base64"
        (.jlist (["p"].map .jstr ++ JVal.jother :: [])) =
      .error (400, "`input` must be a string or a list of strings")) :=
  ⟨rfl, claim_C8_embeddings (fun s => [Int.ofNat (pyLen s)]) (fun _ => "QUJD") "base64"
    ["a", "bb"] "solo" ["p"] .jother [] rfl⟩

/-! ### Claim theorems: BYOK authentication (C9) -/

theorem contains_of_mem {l : List Char} {a : Char} (h : a ∈ l) : l.contains a = true := by
  show List.elem a l = true
  exact List.elem_iff.mpr h

/-- Claim C9: with BYOK enabled, any bearer token containing ":" bypasses the
    token table entirely — authentication never raises 401 for such a token —
    and for a single ":" the two split parts are used directly as catalog
    identifier and secret key (both by authenticate_user and by get_creds);
    for a token with two or more ":" the two-variable unpacking of
    token.split(":") raises an uncaught ValueError instead of returning any
    HTTP error response. -/
theorem claim_C9_byok (tokens : List (List Char × String)) (c s token tk : List Char)
    (CAT SEC : Option (List Char))
    (hc : ':' ∉ c) (hs : ':' ∉ s) (htok : 2 ≤ token.count ':') (htk : ':' ∈ tk) :
    authenticate_user true tokens (c ++ ':' :: s) = .ok ⟨none, some (c, s)⟩ ∧
    get_creds true CAT SEC ⟨none, some (c, s)⟩ = (some c, some s, none) ∧
    authenticate_user true tokens token = .valueError ∧
    authenticate_user true tokens tk ≠ .http401 := by
  refine ⟨?_, rfl, ?_, ?_⟩
  · have hmem : ':' ∈ c ++ ':' :: s :=
      List.mem_append_right _ (List.mem_cons_self _ _)
    have hcont := contains_of_mem hmem
    simp [authenticate_user, hcont, pySplitChar_append ':' c s hc,
      pySplitChar_no_sep ':' s hs]
  · have hmem : ':' ∈ token := by
      by_contra hnm
      rw [List.count_eq_zero.mpr hnm] at htok
      omega
    have hcont := contains_of_mem hmem
    have hlen := pySplitChar_length ':' token
    simp only [authenticate_user, hcont, Bool.and_self, if_true]
    revert hlen
    generalize pySplitChar ':' token = l
    intro hlen
    match l, hlen with
    | [], hlen => simp only [List.length_nil] at hlen; omega
    | [a], hlen => simp only [List.length_cons, List.length_nil] at hlen; omega
    | [a, b], hlen => simp only [List.length_cons, List.length_nil] at hlen; omega
    | a :: b :: x :: r, hlen => rfl
  · have hcont := contains_of_mem htk
    simp only [authenticate_user, hcont, Bool.and_self, if_true]
    generalize pySplitChar ':' tk = l
    match l with
    | [] => exact fun hcontra => nomatch hcontra
    | [a] => exact fun hcontra => nomatch hcontra
    | [a, b] => exact fun hcontra => nomatch hcontra
    | a :: b :: x :: r => exact fun hcontra => nomatch hcontra

theorem claim_C9_witness :
    ':' ∉ "abc".data ∧ ':' ∉ "secret".data ∧
    2 ≤ ("a:b:c".data).count ':' ∧ ':' ∈ "x:y".data ∧
    (authenticate_user true [] ("abc".data ++ ':' :: "secret".data) =
       .ok ⟨none, some ("abc".data, "secret".data)⟩ ∧
     get_creds true none none ⟨none, some ("abc".data, "secret".data)⟩ =
       (some "abc".data, some "secret".data, none) ∧
     authenticate_user true [] "a:b:c".data = .valueError ∧
     authenticate_user true [] "x:y".data ≠ .http401) :=
  ⟨by decide, by decide, by decide, by decide,
   claim_C9_byok [] "abc".data "secret".data "a:b:c".data "x:y".data none none
     (by decide) (by decide) (by decide) (by decide)⟩

end Y2O
